import Mathlib

/-!
Shallow embedding of `src/backend/src/models/cores.rs` (retronomicon).

The database is a pure value: one list of rows per table. Queries are
translated as deterministic nested-loop joins in the order the diesel
query builder states them; `OFFSET`/`LIMIT` become `List.drop`/`List.take`.
`chrono::NaiveDateTime` is embedded as an `Int` timestamp (only its order
is ever used) and the two `Json` columns as opaque `String`s. Row ids are
`Int` (i32 in the source; no arithmetic is ever performed on them, they
are only compared).
-/

/-- Row of the `teams` table. -/
structure Team where
  id : Int
  slug : String
  name : String
deriving Repr, DecidableEq

/-- Row of the `platforms` table. -/
structure Platform where
  id : Int
  slug : String
  name : String
deriving Repr, DecidableEq

/-- Row of the `systems` table. -/
structure System where
  id : Int
  slug : String
  name : String
deriving Repr, DecidableEq

/-- Row of the `cores` table (struct `Core` in cores.rs). -/
structure Core where
  id : Int
  slug : String
  name : String
  description : String
  metadata : String
  links : String
  owner_team_id : Int
deriving Repr, DecidableEq

/-- Row of the `core_systems` junction table (struct `CoreSystems`). -/
structure CoreSystems where
  core_id : Int
  system_id : Int
deriving Repr, DecidableEq

/-- Row of the `core_releases` table (struct `CoreRelease` from the
`releases` submodule; only the columns this module reads are modelled). -/
structure CoreRelease where
  id : Int
  core_id : Int
  platform_id : Int
  date_released : Int
deriving Repr, DecidableEq

/-- The visible database state: one list of rows per table. -/
structure Db where
  teams : List Team
  platforms : List Platform
  systems : List System
  cores : List Core
  core_systems : List CoreSystems
  core_releases : List CoreRelease
deriving Repr, DecidableEq

/-- Errors surfaced by the storage layer (`diesel::result::Error`):
`NotFound` is what `.first()` raises on an empty result and what
`.optional()` converts back to `Ok(None)`; all other variants are
collapsed into `Storage`. -/
inductive DieselError where
  | NotFound
  | UniqueViolation
  | ForeignKeyViolation
  | Storage
deriving Repr, DecidableEq

/-- `query.first(db)`: the first row of the result, `Err(NotFound)` when
the result is empty. -/
def firstQ {α : Type} (rows : List α) : Except DieselError α :=
  match rows with
  | [] => .error .NotFound
  | x :: _ => .ok x

/-- `.optional()`: maps `Err(NotFound)` to `Ok(None)`, keeps other errors. -/
def optionalQ {α : Type} (r : Except DieselError α) : Except DieselError (Option α) :=
  match r with
  | .ok a => .ok (some a)
  | .error .NotFound => .ok none
  | .error e => .error e

/-- One comparison step of `ORDER BY date_released DESC, id DESC LIMIT 1`:
of the current best row `b` and a candidate `r`, the one that sorts first
under descending `(date_released, id)` — `r` exactly when it is strictly
greater in the lexicographic `(date_released, id)` order. -/
def laterRelease (b r : CoreRelease) : CoreRelease :=
  if b.date_released < r.date_released ∨
      (b.date_released = r.date_released ∧ b.id < r.id)
  then r else b

/-- The raw-SQL correlated subquery of `list_with_teams_and_releases`:
`SELECT id FROM core_releases WHERE cores.id = core_releases.core_id
ORDER BY date_released DESC, id DESC LIMIT 1` — the release of `coreId`
that is first under descending `(date_released, id)`, i.e. the one with
the lexicographically greatest `(date_released, id)`. -/
def latestRelease (db : Db) (coreId : Int) : Option CoreRelease :=
  (db.core_releases.filter (fun r => r.core_id == coreId)).foldl
    (fun acc r =>
      match acc with
      | none => some r
      | some b => some (laterRelease b r))
    none

/-- The `left_join(core_releases on core_releases.id = (subquery))` step:
the rows of `core_releases` whose `id` equals the subquery's value, or the
single null row when none matches (also when the subquery yields NULL). -/
def leftJoinRel (db : Db) (c : Core) : List (Option CoreRelease) :=
  let matched := db.core_releases.filter
    (fun r => (latestRelease db c.id).map (fun l => l.id) == some r.id)
  match matched with
  | [] => [none]
  | _ => matched.map some

/-- A row of the primary joined query of `list_with_teams_and_releases`
before `select`, filters and pagination: cores ⨝ teams ⟕ core_releases ⨝
platforms ⨝ core_systems ⨝ systems. -/
structure JRow where
  core : Core
  team : Team
  rel : Option CoreRelease
  platform : Platform
  cs : CoreSystems
  system : System
deriving Repr, DecidableEq

/-- The rows one `cores` row `c` contributes to the primary joined query:
`.inner_join(teams)` (on `teams.id = cores.owner_team_id`),
`.left_join(core_releases on id = subquery)`,
`.inner_join(platforms on platforms.id = core_releases.platform_id)`
(a NULL `platform_id` comparison matches nothing),
`.inner_join(core_systems)` (on `core_systems.core_id = cores.id`),
`.inner_join(systems on systems.id = core_systems.system_id)`. -/
def coreBlock (db : Db) (c : Core) : List JRow :=
  (db.teams.filter (fun t => t.id == c.owner_team_id)).flatMap (fun t =>
    (leftJoinRel db c).flatMap (fun rel =>
      (db.platforms.filter (fun p =>
          match rel with
          | some r => p.id == r.platform_id
          | none => false)).flatMap (fun p =>
        (db.core_systems.filter (fun cs => cs.core_id == c.id)).flatMap (fun cs =>
          (db.systems.filter (fun s => s.id == cs.system_id)).map (fun s =>
            ⟨c, t, rel, p, cs, s⟩)))))

/-- The primary joined query of `list_with_teams_and_releases`, as a
deterministic nested-loop join in the stated join order: each `cores` row
in table order contributes its `coreBlock`. -/
def primaryRows (db : Db) : List JRow :=
  db.cores.flatMap (coreBlock db)

/-- The optional filter arguments of `list_with_teams_and_releases`. -/
structure Filters where
  platform : Option Platform
  system : Option System
  team : Option Team
  release_date_ge : Option Int
deriving Repr, DecidableEq

/-- No filter supplied (each `if let Some(...)` branch skipped). -/
def Filters.none_ : Filters := ⟨none, none, none, none⟩

/-- The conditionally added `.filter(...)` clauses, conjoined: platform id,
system id, team id, and `core_releases.date_released >= release_date_ge`
(on the left-joined release; a NULL date satisfies no comparison). -/
def rowMatches (f : Filters) (row : JRow) : Bool :=
  (match f.platform with
   | some p => row.platform.id == p.id
   | none => true) &&
  (match f.system with
   | some s => row.system.id == s.id
   | none => true) &&
  (match f.team with
   | some t => row.team.id == t.id
   | none => true) &&
  (match f.release_date_ge with
   | some d =>
       match row.rel with
       | some r => d ≤ r.date_released
       | none => false
   | none => true)

/-- The selected columns of the primary query:
`(cores::all_columns, teams::all_columns, Option<CoreRelease>, platforms::all_columns)`. -/
def selectRow (row : JRow) : Core × Team × Option CoreRelease × Platform :=
  (row.core, row.team, row.rel, row.platform)

/-- The primary query of `list_with_teams_and_releases` as executed: the
filtered join, selected, then `.offset(page * limit).limit(limit)`. -/
def pageQuery (db : Db) (page limit : Int) (f : Filters) :
    List (Core × Team × Option CoreRelease × Platform) :=
  ((((primaryRows db).filter (rowMatches f)).map selectRow).drop
      (page * limit).toNat).take limit.toNat

/-- `CoreSystems::belonging_to(&parents).inner_join(systems)`: the junction
rows whose `core_id` is among the parents' ids, each inner-joined to its
`System` row, selected as `(CoreSystems, System)`. -/
def childRows (db : Db) (parents : List Core) : List (CoreSystems × System) :=
  (db.core_systems.filter
      (fun cs => parents.any (fun c => c.id == cs.core_id))).flatMap
    (fun cs =>
      (db.systems.filter (fun s => s.id == cs.system_id)).map (fun s => (cs, s)))

/-- The index a child with foreign key `cid` is grouped under by diesel's
`grouped_by`: the hash map built from `parents.iter().enumerate()` keeps,
for each id, the position of its last occurrence. -/
def parentIdx (parents : List Core) (cid : Int) : Option Nat :=
  parents.enum.foldl
    (fun acc ic => if ic.2.id == cid then some ic.1 else acc)
    none

/-- Diesel's `grouped_by`: one group per parent, in parent order; each
child row joins the group of the parent its `core_id` points at (children
whose parent is absent are dropped), preserving child order. -/
def groupedBy (children : List (CoreSystems × System))
    (parents : List Core) : List (List (CoreSystems × System)) :=
  (List.range parents.length).map
    (fun i => children.filter (fun ch => parentIdx parents ch.1.core_id == some i))

/-- A composite record of the result:
`(Core, Vec<System>, Team, Option<CoreRelease>, Platform)`. -/
structure CompositeRec where
  core : Core
  systems : List System
  team : Team
  rel : Option CoreRelease
  platform : Platform
deriving Repr, DecidableEq

/-- `Core::list_with_teams_and_releases` (the spec's `list_composite`):
runs the paginated primary query, loads `all_cores` (the whole `cores`
table), fetches the junction rows scoped to the page's cores, groups them
by `all_cores`, zips the groups with the page rows positionally (the zip
truncates to the shorter side) and emits one composite record per pair. -/
def list_with_teams_and_releases (db : Db) (page limit : Int) (f : Filters) :
    List CompositeRec :=
  let cores := pageQuery db page limit f
  let all_cores := db.cores
  let systems := childRows db (cores.map (fun r => r.1))
  ((groupedBy systems all_cores).zip cores).map
    (fun gc => ⟨gc.2.1, gc.1.map (fun ch => ch.2), gc.2.2.1, gc.2.2.2.1, gc.2.2.2.2⟩)

/-- `Core::create`: one `INSERT INTO cores ... RETURNING *` (failing on a
duplicate slug), then a second, separate statement batch-inserting the
junction rows (failing when a supplied system id references no existing
`systems` row). The connection runs the two statements with no enclosing
transaction, so the state after a failed junction insert retains the
already-committed core row. `newId` stands for the id the store's serial
column assigns to the new row; the function returns the database state
visible after the call together with the call's result. -/
def create (db : Db) (newId : Int) (slug name description metadata links : String)
    (systems : List System) (owner_team : Team) : Db × Except DieselError Core :=
  if db.cores.any (fun c => c.slug == slug) then
    (db, .error .UniqueViolation)
  else
    let core : Core := ⟨newId, slug, name, description, metadata, links, owner_team.id⟩
    let db1 := { db with cores := db.cores ++ [core] }
    if systems.all (fun s => db.systems.any (fun s2 => s2.id == s.id)) then
      ({ db1 with
          core_systems := db1.core_systems ++ systems.map (fun s => ⟨newId, s.id⟩) },
        .ok core)
    else
      (db1, .error .ForeignKeyViolation)

/-- The argument type of `get_with_owner_and_systems`
(`dto::types::IdOrSlug`), seen through the two accessors the code calls. -/
structure IdOrSlug where
  as_id : Option Int
  as_slug : Option String
deriving Repr, DecidableEq

/-- `Core::get_with_owner_and_systems`: cores ⨝ teams, filtered by id if
present, else by slug if present, else the early `return Ok(None)`;
`.first(...).optional()?` on that query, returning `Ok(None)` on no row
and propagating other storage errors; on a hit, a second query loads the
core's systems (`core_systems` filtered by the core's id, inner-joined to
`systems`, selecting the system columns). In the pure embedding the store
never fails, so every path ends in `Except.ok`. -/
def get_with_owner_and_systems (db : Db) (id : IdOrSlug) :
    Except DieselError (Option (Core × Team × List System)) :=
  let base : List (Core × Team) := db.cores.flatMap (fun c =>
    (db.teams.filter (fun t => t.id == c.owner_team_id)).map (fun t => (c, t)))
  match
    (match id.as_id with
     | some i => some (base.filter (fun ct => ct.1.id == i))
     | none =>
         match id.as_slug with
         | some s => some (base.filter (fun ct => ct.1.slug == s))
         | none => none : Option (List (Core × Team)))
  with
  | none => .ok none
  | some filtered =>
      match optionalQ (firstQ filtered) with
      | .error e => .error e
      | .ok none => .ok none
      | .ok (some results) =>
          .ok (some (results.1, results.2,
            (db.core_systems.filter
                (fun cs => cs.core_id == results.1.id)).flatMap
              (fun cs => db.systems.filter (fun s => s.id == cs.system_id))))

/-! ## Helper lemmas about the embedded queries -/

/-- The lexicographic "no later than" order the subquery sorts by. -/
def relLe (x l : CoreRelease) : Prop :=
  x.date_released < l.date_released ∨
    (x.date_released = l.date_released ∧ x.id ≤ l.id)

theorem relLe_refl (a : CoreRelease) : relLe a a := by
  right; exact ⟨rfl, le_refl _⟩

theorem relLe_trans {a b c : CoreRelease} (h₁ : relLe a b) (h₂ : relLe b c) :
    relLe a c := by
  unfold relLe at *
  omega

theorem relLe_laterRelease_left (a x : CoreRelease) : relLe a (laterRelease a x) := by
  unfold laterRelease
  by_cases h : a.date_released < x.date_released ∨
      (a.date_released = x.date_released ∧ a.id < x.id)
  · simp only [if_pos h]; unfold relLe; omega
  · simp only [if_neg h]; exact relLe_refl a

theorem relLe_laterRelease_right (a x : CoreRelease) : relLe x (laterRelease a x) := by
  unfold laterRelease
  by_cases h : a.date_released < x.date_released ∨
      (a.date_released = x.date_released ∧ a.id < x.id)
  · simp only [if_pos h]; exact relLe_refl x
  · simp only [if_neg h]; unfold relLe; omega

theorem foldl_laterRelease_le (xs : List CoreRelease) (a : CoreRelease) :
    relLe a (xs.foldl laterRelease a) := by
  induction xs generalizing a with
  | nil => exact relLe_refl a
  | cons x xs ih =>
      exact relLe_trans (relLe_laterRelease_left a x) (ih (laterRelease a x))

theorem foldl_laterRelease_max (xs : List CoreRelease) (a : CoreRelease) :
    ∀ x ∈ xs, relLe x (xs.foldl laterRelease a) := by
  induction xs generalizing a with
  | nil => intro x hx; cases hx
  | cons y xs ih =>
      intro x hx
      rcases List.mem_cons.mp hx with rfl | hx
      · exact relLe_trans (relLe_laterRelease_right a x)
          (foldl_laterRelease_le xs (laterRelease a x))
      · exact ih (laterRelease a y) x hx

theorem foldl_laterRelease_mem (xs : List CoreRelease) (a : CoreRelease) :
    xs.foldl laterRelease a = a ∨ xs.foldl laterRelease a ∈ xs := by
  induction xs generalizing a with
  | nil => left; rfl
  | cons x xs ih =>
      rcases ih (laterRelease a x) with h | h
      · simp only [List.foldl, h]
        unfold laterRelease
        by_cases hc : a.date_released < x.date_released ∨
            (a.date_released = x.date_released ∧ a.id < x.id)
        · right; simp [if_pos hc]
        · left; simp [if_neg hc]
      · right; exact List.mem_cons_of_mem _ h

theorem latestRelease_foldl_some (xs : List CoreRelease) (a : CoreRelease) :
    xs.foldl
        (fun acc r =>
          match acc with
          | none => some r
          | some b => some (laterRelease b r))
        (some a)
      = some (xs.foldl laterRelease a) := by
  induction xs generalizing a with
  | nil => rfl
  | cons x xs ih => simpa using ih (laterRelease a x)

/-- The subquery's result is a release of the core, maximal under the
lexicographic `(date_released, id)` order. -/
theorem latestRelease_spec (db : Db) (cid : Int) (l : CoreRelease)
    (h : latestRelease db cid = some l) :
    l ∈ db.core_releases.filter (fun r => r.core_id == cid) ∧
      ∀ x ∈ db.core_releases.filter (fun r => r.core_id == cid), relLe x l := by
  unfold latestRelease at h
  cases hxs : db.core_releases.filter (fun r => r.core_id == cid) with
  | nil => rw [hxs] at h; cases h
  | cons y ys =>
      rw [hxs] at h
      simp only [List.foldl] at h
      rw [latestRelease_foldl_some ys y] at h
      have hl : l = ys.foldl laterRelease y := by
        exact (Option.some.injEq _ _).mp h.symm
      constructor
      · rcases foldl_laterRelease_mem ys y with h' | h'
        · rw [hl, h']; exact List.mem_cons_self _ _
        · rw [hl]; exact List.mem_cons_of_mem _ h'
      · intro x hx
        rcases List.mem_cons.mp hx with rfl | hx
        · rw [hl]; exact foldl_laterRelease_le ys x
        · rw [hl]; exact foldl_laterRelease_max ys y x hx

/-- A non-null row produced by the release left join is a `core_releases`
row whose id equals the subquery's chosen id. -/
theorem mem_leftJoinRel_some (db : Db) (c : Core) (r : CoreRelease)
    (h : some r ∈ leftJoinRel db c) :
    r ∈ db.core_releases ∧
      ∃ l, latestRelease db c.id = some l ∧ l.id = r.id := by
  unfold leftJoinRel at h
  cases hm : db.core_releases.filter
      (fun r => (latestRelease db c.id).map (fun l => l.id) == some r.id) with
  | nil =>
      rw [hm] at h
      simp at h
  | cons y ys =>
      rw [hm] at h
      simp only at h
      have hr : r ∈ y :: ys := by
        rcases List.mem_map.mp h with ⟨a, ha, hae⟩
        cases hae
        exact ha
      have hr' := hm ▸ hr
      have hmem := List.mem_filter.mp hr'
      refine ⟨hmem.1, ?_⟩
      cases hlr : latestRelease db c.id with
      | none => rw [hlr] at hmem; simp at hmem
      | some l =>
          rw [hlr] at hmem
          exact ⟨l, rfl, by simpa using hmem.2⟩

/-- Shape of any row of a core's block: its components, where they come
from and the join conditions they satisfy; in particular the `platforms`
inner join forces the left-joined release to be non-null. -/
theorem mem_coreBlock (db : Db) (c : Core) (row : JRow)
    (h : row ∈ coreBlock db c) :
    row.core = c ∧ row.team ∈ db.teams ∧ row.team.id = c.owner_team_id ∧
      (∃ r, row.rel = some r ∧ some r ∈ leftJoinRel db c ∧
        row.platform.id = r.platform_id ∧ row.platform ∈ db.platforms) ∧
      row.cs ∈ db.core_systems ∧ row.cs.core_id = c.id ∧
      row.system ∈ db.systems ∧ row.system.id = row.cs.system_id := by
  unfold coreBlock at h
  simp only [List.mem_flatMap, List.mem_map, List.mem_filter] at h
  obtain ⟨t, ⟨ht, hteq⟩, rel, hrel, p, ⟨hp, hpeq⟩, cs, ⟨hcs, hcseq⟩, s, ⟨hs, hseq⟩, hrow⟩ := h
  cases rel with
  | none => simp at hpeq
  | some r =>
      subst hrow
      refine ⟨rfl, ht, by simpa using hteq, ⟨r, rfl, hrel, by simpa using hpeq, hp⟩,
        hcs, by simpa using hcseq, hs, by simpa using hseq⟩

theorem mem_primaryRows (db : Db) (row : JRow) (h : row ∈ primaryRows db) :
    ∃ c ∈ db.cores, row ∈ coreBlock db c :=
  List.mem_flatMap.mp h

/-- Every record of the composite result is the image of a primary-query
row that passed the filters; the record's core, team, release and platform
columns are that row's. -/
theorem mem_list_spec (db : Db) (page limit : Int) (f : Filters)
    (rec : CompositeRec) (h : rec ∈ list_with_teams_and_releases db page limit f) :
    ∃ row, row ∈ primaryRows db ∧ rowMatches f row = true ∧
      rec.core = row.core ∧ rec.team = row.team ∧
      rec.rel = row.rel ∧ rec.platform = row.platform := by
  unfold list_with_teams_and_releases at h
  simp only [List.mem_map] at h
  obtain ⟨gc, hgc, hrec⟩ := h
  obtain ⟨g, sel⟩ := gc
  have hsel : sel ∈ pageQuery db page limit f := (List.of_mem_zip hgc).2
  unfold pageQuery at hsel
  have hsel2 := List.mem_of_mem_drop (List.mem_of_mem_take hsel)
  obtain ⟨row, hrow, hseleq⟩ := List.mem_map.mp hsel2
  have hrow' := List.mem_filter.mp hrow
  refine ⟨row, hrow'.1, hrow'.2, ?_, ?_, ?_, ?_⟩ <;>
    (rw [← hrec, ← hseleq]; rfl)

/-! ## Concrete databases used as test inputs -/

def teamOne : Team := ⟨1, "t1", "Team One"⟩

def linuxX64 : Platform := ⟨1, "linux-x64", "Linux x64"⟩

def genesis : System := ⟨1, "genesis", "Genesis"⟩

def mastersystem : System := ⟨2, "mastersystem", "Master System"⟩

def picodrive : Core := ⟨1, "picodrive", "PicoDrive", "", "{}", "{}", 1⟩

def rel1 : CoreRelease := ⟨1, 1, 1, 20230101⟩

def rel2 : CoreRelease := ⟨2, 1, 1, 20230601⟩

/-- The database of the spec's concrete scenario: team `t1` owns core
`picodrive`, associated with `genesis` and `mastersystem`, with two
`linux-x64` releases dated 2023-01-01 and 2023-06-01. -/
def picoDb : Db :=
  ⟨[teamOne], [linuxX64], [genesis, mastersystem], [picodrive],
    [⟨1, 1⟩, ⟨1, 2⟩], [rel1, rel2]⟩

/-- The composite record the scenario is expected to produce. -/
def picoRec : CompositeRec :=
  ⟨picodrive, [genesis, mastersystem], teamOne, some rel2, linuxX64⟩

def coreA : Core := ⟨1, "a", "A", "", "{}", "{}", 1⟩

def coreB : Core := ⟨2, "b", "B", "", "{}", "{}", 1⟩

def sysS : System := ⟨5, "s", "S"⟩

def relB : CoreRelease := ⟨7, 2, 1, 100⟩

/-- Two cores: `a` owns no systems (so the junction inner join keeps it
out of the page), `b` owns system `s` and has one release. -/
def dbAB : Db :=
  ⟨[teamOne], [linuxX64], [sysS], [coreA, coreB], [⟨2, 5⟩], [relB]⟩

/-- One core that owns system `s` but has no release at all. -/
def dbNoRelease : Db :=
  ⟨[teamOne], [linuxX64], [sysS], [coreA], [⟨1, 5⟩], []⟩

/-- One core with a release on an existing platform but no systems. -/
def dbNoSystems : Db :=
  ⟨[teamOne], [linuxX64], [sysS], [coreA], [], [⟨7, 1, 1, 100⟩]⟩

/-- A store with a team but an empty `systems` table. -/
def dbEmptySystems : Db := ⟨[teamOne], [], [], [], [], []⟩

/-- One core whose only release is dated 2021-06-01. -/
def db2021 : Db :=
  ⟨[teamOne], [linuxX64], [sysS], [coreA], [⟨1, 5⟩], [⟨3, 1, 1, 20210601⟩]⟩

/-! ## Claim theorems -/

/-- Claim C1 (code bug, failing input): the parent set used to compute the
System group boundaries is the full `cores` table (`all_cores`), not the
page's parent set that scoped the child fetch. On `dbAB` the page holds
only core `b`, the child fetch scoped to the page's parents does return
`b`'s junction row with system `s`, yet the emitted record for `b`
carries core `a`'s empty group: the i-th group is not the i-th returned
row's. -/
theorem grouping_parent_set_mismatch :
    pageQuery dbAB 0 10 Filters.none_ = [(coreB, teamOne, some relB, linuxX64)] ∧
    childRows dbAB ((pageQuery dbAB 0 10 Filters.none_).map (fun r => r.1)) =
      [(⟨2, 5⟩, sysS)] ∧
    list_with_teams_and_releases dbAB 0 10 Filters.none_ =
      [⟨coreB, [], teamOne, some relB, linuxX64⟩] := by decide

/-- Claim C2 (code bug, failing input): `create` is not atomic. With an
empty `systems` table and a request whose systems list references system
id 9, the junction insert fails with a foreign-key violation, yet the
freshly inserted core row stays visible in the state after the call. -/
theorem create_core_persists_after_junction_failure :
    (create dbEmptySystems 1 "c" "C" "" "{}" "{}" [⟨9, "ghost", "Ghost"⟩] teamOne).2 =
      .error .ForeignKeyViolation ∧
    (create dbEmptySystems 1 "c" "C" "" "{}" "{}" [⟨9, "ghost", "Ghost"⟩] teamOne).1.cores =
      [⟨1, "c", "C", "", "{}", "{}", 1⟩] := ⟨rfl, rfl⟩

/-- Claim C3 (counterexample): a core with zero releases that matches the
(absent) filters is not included with a null release and platform — it is
missing from the result entirely. -/
theorem releaseless_core_dropped_cex :
    dbNoRelease.cores = [coreA] ∧
    dbNoRelease.core_releases = [] ∧
    list_with_teams_and_releases dbNoRelease 0 10 Filters.none_ = [] := by decide

/-- Claim C4 (code bug, failing input): a core with zero associated
systems (but a team, a release and a platform) does not appear in the
composite result with an empty System group — the `core_systems` inner
join leaves it no primary rows at all. -/
theorem systemless_core_dropped :
    dbNoSystems.cores = [coreA] ∧
    dbNoSystems.core_systems = [] ∧
    list_with_teams_and_releases dbNoSystems 0 10 Filters.none_ = [] := by decide

/-- Claim C7: on the spec's concrete scenario, `list_composite(page 0,
limit 10, no filters)` returns exactly one composite record for
`picodrive`, its attached release is the 2023-06-01 one (`rel2`) and its
System group is exactly `[genesis, mastersystem]` (hence equal to the
scenario's set of systems as a set). -/
theorem picodrive_scenario :
    list_with_teams_and_releases picoDb 0 10 Filters.none_ = [picoRec] := by decide

/-- Claim C8 (code bug, failing input): with limit 1 on the scenario
database, page 0 and page 1 both return the very same record (the core
fans out to one primary row per associated system, and the group zip runs
against the full-table core list), so concatenating successive pages
duplicates the record and does not reproduce the unpaged result, which
holds it once. -/
theorem pagination_not_partitioning :
    list_with_teams_and_releases picoDb 0 1 Filters.none_ = [picoRec] ∧
    list_with_teams_and_releases picoDb 1 1 Filters.none_ = [picoRec] ∧
    list_with_teams_and_releases picoDb 2 1 Filters.none_ = [] ∧
    list_with_teams_and_releases picoDb 0 10 Filters.none_ = [picoRec] := by decide

/-- Claim C3 (amended): a core with zero releases never appears in the
composite result — every returned record's core owns at least one
`core_releases` row. The latest-release sub-selection is outer-joined,
but the subsequent inner `platforms` join compares the null release's
platform id, matches nothing, and discards releaseless cores. -/
theorem releaseless_core_never_listed (db : Db) (page limit : Int) (f : Filters)
    (rec : CompositeRec) (h : rec ∈ list_with_teams_and_releases db page limit f) :
    db.core_releases.filter (fun r => r.core_id == rec.core.id) ≠ [] := by
  obtain ⟨row, hrow, _, hcore, _, _, _⟩ := mem_list_spec db page limit f rec h
  obtain ⟨c, _, hblock⟩ := mem_primaryRows db row hrow
  obtain ⟨hrc, _, _, ⟨r, _, hljr, _, _⟩, _⟩ := mem_coreBlock db c row hblock
  obtain ⟨_, l, hlat, _⟩ := mem_leftJoinRel_some db c r hljr
  have hlmem := (latestRelease_spec db c.id l hlat).1
  have hcc : rec.core = c := hcore.trans hrc
  rw [hcc]
  exact List.ne_nil_of_mem hlmem

/-- Witness for the amended C3 theorem at the scenario database. -/
theorem releaseless_core_never_listed_witness :
    picoDb.core_releases.filter (fun r => r.core_id == picoRec.core.id) ≠ [] :=
  releaseless_core_never_listed picoDb 0 10 Filters.none_ picoRec (by decide)

/-- Claim C5: with release ids unique (they are the table's primary key),
the release attached to a returned record belongs to the record's core and
is maximal among that core's releases under the lexicographic
`(date_released, id)` order — a later date wins regardless of id, and on
equal dates the greater id wins. -/
theorem attached_release_is_latest (db : Db) (page limit : Int) (f : Filters)
    (rec : CompositeRec) (r : CoreRelease)
    (hnd : (db.core_releases.map (fun x => x.id)).Nodup)
    (h : rec ∈ list_with_teams_and_releases db page limit f)
    (hr : rec.rel = some r) :
    r.core_id = rec.core.id ∧ r ∈ db.core_releases ∧
      ∀ x ∈ db.core_releases, x.core_id = rec.core.id →
        x.date_released < r.date_released ∨
          (x.date_released = r.date_released ∧ x.id ≤ r.id) := by
  obtain ⟨row, hrow, _, hcore, _, hrel, _⟩ := mem_list_spec db page limit f rec h
  obtain ⟨c, _, hblock⟩ := mem_primaryRows db row hrow
  obtain ⟨hrc, _, _, ⟨r', hrel', hljr, _, _⟩, _⟩ := mem_coreBlock db c row hblock
  have hrr' : r' = r := by
    have : some r' = some r := by rw [← hrel', ← hrel, hr]
    exact Option.some.inj this
  rw [hrr'] at hljr
  obtain ⟨hrmem, l, hlat, hlid⟩ := mem_leftJoinRel_some db c r hljr
  have hspec := latestRelease_spec db c.id l hlat
  have hlmem' := List.mem_filter.mp hspec.1
  have hlr : l = r :=
    List.inj_on_of_nodup_map hnd hlmem'.1 hrmem hlid
  have hcc : rec.core = c := hcore.trans hrc
  refine ⟨?_, hrmem, ?_⟩
  · rw [hcc, ← hlr]
    exact eq_of_beq hlmem'.2
  · intro x hx hxc
    have hxf : x ∈ db.core_releases.filter (fun y => y.core_id == c.id) :=
      List.mem_filter.mpr ⟨hx, by rw [hxc, hcc]; exact beq_self_eq_true _⟩
    have := hspec.2 x hxf
    rw [hlr] at this
    exact this

/-- Witness for C5 at the scenario database: the attached release `rel2`
belongs to `picodrive` and beats `rel1` on date. -/
theorem attached_release_is_latest_witness :
    rel2.core_id = picoRec.core.id ∧ rel2 ∈ picoDb.core_releases ∧
      (rel1.date_released < rel2.date_released ∨
        (rel1.date_released = rel2.date_released ∧ rel1.id ≤ rel2.id)) := by
  have h := attached_release_is_latest picoDb 0 10 Filters.none_ picoRec rel2
    (by decide) (by decide) (by decide)
  exact ⟨h.1, h.2.1, h.2.2 rel1 (by decide) (by decide)⟩

/-- Claim C6: the minimum-release-date filter tests only the resolved
latest release — with release ids unique, a core whose latest release
predates the threshold contributes no record at all, whatever its other
releases; in particular a core whose only release is dated 2021-06-01 is
excluded under threshold 2022-01-01 (see the witness). -/
theorem min_release_date_filters_on_latest (db : Db) (page limit : Int)
    (f : Filters) (d : Int) (c : Core) (r : CoreRelease)
    (hnd : (db.core_releases.map (fun x => x.id)).Nodup)
    (hf : f.release_date_ge = some d)
    (hl : latestRelease db c.id = some r)
    (hlt : r.date_released < d) :
    c.id ∉ (list_with_teams_and_releases db page limit f).map
      (fun rec => rec.core.id) := by
  intro hmem
  obtain ⟨rec, hrec, hid⟩ := List.mem_map.mp hmem
  obtain ⟨row, hrow, hmatch, hcore, _, _, _⟩ := mem_list_spec db page limit f rec hrec
  obtain ⟨c', _, hblock⟩ := mem_primaryRows db row hrow
  obtain ⟨hrc, _, _, ⟨r', hrel', hljr, _, _⟩, _⟩ := mem_coreBlock db c' row hblock
  obtain ⟨hrmem, l, hlat, hlid⟩ := mem_leftJoinRel_some db c' r' hljr
  have hlrel : l ∈ db.core_releases :=
    (List.mem_filter.mp (latestRelease_spec db c'.id l hlat).1).1
  have hrl : r' = l := List.inj_on_of_nodup_map hnd hrmem hlrel hlid.symm
  have hcid : c'.id = c.id := by
    rw [← hid, hcore, hrc]
  have hrleq : l = r := by
    have hlat' : latestRelease db c.id = some l := hcid ▸ hlat
    rw [hl] at hlat'
    exact (Option.some.inj hlat').symm
  unfold rowMatches at hmatch
  rw [hf, hrel'] at hmatch
  simp only [Bool.and_eq_true, decide_eq_true_eq] at hmatch
  have hd : d ≤ r'.date_released := hmatch.2
  rw [hrl, hrleq] at hd
  omega

/-- Witness for C6: in `db2021` the only release of core `a` is dated
2021-06-01, so under threshold 2022-01-01 no record for it is returned. -/
theorem min_release_date_filters_on_latest_witness :
    (1 : Int) ∉ (list_with_teams_and_releases db2021 0 10
        ⟨none, none, none, some 20220101⟩).map (fun rec => rec.core.id) := by
  have h := min_release_date_filters_on_latest db2021 0 10
      ⟨none, none, none, some 20220101⟩ 20220101 coreA ⟨3, 1, 1, 20210601⟩
      (by decide) rfl (by decide) (by decide)
  simpa using h

/-- Claim C9: `get_with_owner_and_systems` returns `Ok(None)` — an empty
result, not an error — in all three miss cases: a numeric id matching no
core, a slug (with no id) matching no core, and an identity carrying
neither id nor slug. -/
theorem get_one_miss_returns_none (db : Db) (q : IdOrSlug)
    (h : match q.as_id, q.as_slug with
      | some i, _ => ∀ c ∈ db.cores, c.id ≠ i
      | none, some s => ∀ c ∈ db.cores, c.slug ≠ s
      | none, none => True) :
    get_with_owner_and_systems db q = .ok none := by
  obtain ⟨qi, qs⟩ := q
  cases qi with
  | some i =>
      have hfil : (db.cores.flatMap (fun c =>
          (db.teams.filter (fun t => t.id == c.owner_team_id)).map
            (fun t => (c, t)))).filter (fun ct => ct.1.id == i) = [] := by
        rw [List.filter_eq_nil_iff]
        intro ct hct
        obtain ⟨c, hc, hct2⟩ := List.mem_flatMap.mp hct
        obtain ⟨t, _, hcteq⟩ := List.mem_map.mp hct2
        intro hbeq
        apply h c hc
        rw [← hcteq] at hbeq
        exact eq_of_beq hbeq
      simp [get_with_owner_and_systems, hfil, firstQ, optionalQ]
  | none =>
      cases qs with
      | some s =>
          have hfil : (db.cores.flatMap (fun c =>
              (db.teams.filter (fun t => t.id == c.owner_team_id)).map
                (fun t => (c, t)))).filter (fun ct => ct.1.slug == s) = [] := by
            rw [List.filter_eq_nil_iff]
            intro ct hct
            obtain ⟨c, hc, hct2⟩ := List.mem_flatMap.mp hct
            obtain ⟨t, _, hcteq⟩ := List.mem_map.mp hct2
            intro hbeq
            apply h c hc
            rw [← hcteq] at hbeq
            exact eq_of_beq hbeq
          simp [get_with_owner_and_systems, hfil, firstQ, optionalQ]
      | none => rfl

/-- Witness for C9: the three miss cases on the scenario database, with
each hypothesis discharged concretely. -/
theorem get_one_miss_returns_none_witness :
    get_with_owner_and_systems picoDb ⟨some 99, none⟩ = .ok none ∧
    get_with_owner_and_systems picoDb ⟨none, some "nope"⟩ = .ok none ∧
    get_with_owner_and_systems picoDb ⟨none, none⟩ = .ok none :=
  ⟨get_one_miss_returns_none picoDb ⟨some 99, none⟩ (by decide),
    get_one_miss_returns_none picoDb ⟨none, some "nope"⟩ (by decide),
    get_one_miss_returns_none picoDb ⟨none, none⟩ trivial⟩

theorem length_flatMap_ones {α β : Type} (l : List α) (g : α → List β)
    (h : ∀ x ∈ l, (g x).length = 1) : (l.flatMap g).length = l.length := by
  induction l with
  | nil => rfl
  | cons x xs ih =>
      rw [List.flatMap_cons, List.length_append, h x (List.mem_cons_self x xs),
        ih (fun y hy => h y (List.mem_cons_of_mem x hy)), List.length_cons]
      omega

/-- The block a qualifying core contributes to the filtered primary query:
with a unique matching team, a resolved release, a unique matching
platform, one system per junction row, and the non-system filters
passing, the core's filtered block counts exactly one row per junction
row of the core. -/
theorem coreBlock_fanout (db : Db) (f : Filters) (c : Core) (t : Team)
    (r : CoreRelease) (p : Platform)
    (hsys : f.system = none)
    (ht : db.teams.filter (fun x => x.id == c.owner_team_id) = [t])
    (hr : leftJoinRel db c = [some r])
    (hp : db.platforms.filter (fun x => x.id == r.platform_id) = [p])
    (hone : ∀ cs ∈ db.core_systems.filter (fun cs => cs.core_id == c.id),
        (db.systems.filter (fun s => s.id == cs.system_id)).length = 1)
    (hfp : (match f.platform with | some fp => p.id == fp.id | none => true) = true)
    (hft : (match f.team with | some ft => t.id == ft.id | none => true) = true)
    (hfd : (match f.release_date_ge with
            | some d => decide (d ≤ r.date_released)
            | none => true) = true) :
    ((coreBlock db c).filter (rowMatches f)).countP
        (fun row => row.core.id == c.id) =
      (db.core_systems.filter (fun cs => cs.core_id == c.id)).length := by
  unfold coreBlock
  rw [ht, hr]
  simp only [List.flatMap_cons, List.flatMap_nil, List.append_nil]
  rw [hp]
  simp only [List.flatMap_cons, List.flatMap_nil, List.append_nil]
  have hall : ∀ row ∈ (db.core_systems.filter
      (fun cs => cs.core_id == c.id)).flatMap
        (fun cs => (db.systems.filter (fun s => s.id == cs.system_id)).map
          (fun s => (⟨c, t, some r, p, cs, s⟩ : JRow))),
      rowMatches f row = true := by
    intro row hrow
    obtain ⟨cs, _, hrow2⟩ := List.mem_flatMap.mp hrow
    obtain ⟨s, _, hroweq⟩ := List.mem_map.mp hrow2
    rw [← hroweq]
    unfold rowMatches
    rw [hsys]
    simp only [Bool.and_eq_true]
    exact ⟨⟨⟨hfp, by simp⟩, hft⟩, hfd⟩
  rw [List.filter_eq_self.mpr hall]
  have hallc : ∀ row ∈ (db.core_systems.filter
      (fun cs => cs.core_id == c.id)).flatMap
        (fun cs => (db.systems.filter (fun s => s.id == cs.system_id)).map
          (fun s => (⟨c, t, some r, p, cs, s⟩ : JRow))),
      (fun row => row.core.id == c.id) row = true := by
    intro row hrow
    obtain ⟨cs, _, hrow2⟩ := List.mem_flatMap.mp hrow
    obtain ⟨s, _, hroweq⟩ := List.mem_map.mp hrow2
    rw [← hroweq]
    exact beq_self_eq_true _
  rw [List.countP_eq_length.mpr hallc]
  exact length_flatMap_ones _ _ (fun cs hcs => by
    rw [List.length_map]; exact hone cs hcs)

/-- A core whose id differs contributes no row counted for `c`. -/
theorem countP_coreBlock_other (db : Db) (f : Filters) (c c' : Core)
    (hne : c'.id ≠ c.id) :
    ((coreBlock db c').filter (rowMatches f)).countP
      (fun row => row.core.id == c.id) = 0 := by
  rw [List.countP_eq_zero]
  intro row hrow
  have hb := (mem_coreBlock db c' row (List.mem_filter.mp hrow).1).1
  simp [hb, hne]

/-- Claim C10: the primary query's `core_systems`/`systems` inner joins
fan each core out to one row per associated system. With no system filter
supplied, a core passing the remaining joins and filters (one matching
team, a resolved latest release, one matching platform, one system per
junction row) contributes exactly one filtered primary row per junction
row; and the page's offset/limit slice counts these fanned-out rows, not
distinct cores. -/
theorem system_join_fanout_count (db : Db) (f : Filters) (c : Core)
    (t : Team) (r : CoreRelease) (p : Platform)
    (hc : c ∈ db.cores)
    (hnd : (db.cores.map (fun x => x.id)).Nodup)
    (hsys : f.system = none)
    (ht : db.teams.filter (fun x => x.id == c.owner_team_id) = [t])
    (hr : leftJoinRel db c = [some r])
    (hp : db.platforms.filter (fun x => x.id == r.platform_id) = [p])
    (hone : ∀ cs ∈ db.core_systems.filter (fun cs => cs.core_id == c.id),
        (db.systems.filter (fun s => s.id == cs.system_id)).length = 1)
    (hfp : (match f.platform with | some fp => p.id == fp.id | none => true) = true)
    (hft : (match f.team with | some ft => t.id == ft.id | none => true) = true)
    (hfd : (match f.release_date_ge with
            | some d => decide (d ≤ r.date_released)
            | none => true) = true) :
    ((primaryRows db).filter (rowMatches f)).countP
        (fun row => row.core.id == c.id) =
      (db.core_systems.filter (fun cs => cs.core_id == c.id)).length ∧
    ∀ page limit : Int, (pageQuery db page limit f).length =
      limit.toNat ⊓
        (((primaryRows db).filter (rowMatches f)).length - (page * limit).toNat) := by
  constructor
  · unfold primaryRows
    have key : ∀ l : List Core, (l.map (fun x => x.id)).Nodup → c ∈ l →
        ((l.flatMap (coreBlock db)).filter (rowMatches f)).countP
            (fun row => row.core.id == c.id) =
          (db.core_systems.filter (fun cs => cs.core_id == c.id)).length := by
      intro l
      induction l with
      | nil => intro _ hcl; cases hcl
      | cons x xs ih =>
          intro hnd' hcl
          have hnd'' : x.id ∉ xs.map (fun y => y.id) ∧
              (xs.map (fun y => y.id)).Nodup := by
            rw [List.map_cons] at hnd'
            exact List.nodup_cons.mp hnd'
          rw [List.flatMap_cons, List.filter_append, List.countP_append]
          rcases List.mem_cons.mp hcl with rfl | hcx
          · have h0 : ((xs.flatMap (coreBlock db)).filter (rowMatches f)).countP
                (fun row => row.core.id == c.id) = 0 := by
              rw [List.countP_eq_zero]
              intro row hrow
              obtain ⟨c', hc', hb⟩ := List.mem_flatMap.mp (List.mem_filter.mp hrow).1
              have hcore' := (mem_coreBlock db c' row hb).1
              have hne : c'.id ≠ c.id := by
                intro he
                exact hnd''.1 (he ▸ List.mem_map_of_mem (fun y => y.id) hc')
              simp [hcore', hne]
            rw [h0, coreBlock_fanout db f c t r p hsys ht hr hp hone hfp hft hfd]
            exact Nat.add_zero _
          · have hxne : x.id ≠ c.id := by
              intro he
              exact hnd''.1 (he ▸ List.mem_map_of_mem (fun y => y.id) hcx)
            rw [countP_coreBlock_other db f c x hxne,
              ih hnd''.2 hcx, Nat.zero_add]
    exact key db.cores hnd hc
  · intro page limit
    unfold pageQuery
    rw [List.length_take, List.length_drop, List.length_map]

/-- Witness for C10 at the scenario database: `picodrive` has two junction
rows and contributes two filtered primary rows; with limit 1, page 1 still
holds one record's row — the slice counts fanned rows. -/
theorem system_join_fanout_count_witness :
    ((primaryRows picoDb).filter (rowMatches Filters.none_)).countP
        (fun row => row.core.id == picodrive.id) =
      (picoDb.core_systems.filter (fun cs => cs.core_id == picodrive.id)).length ∧
    (pageQuery picoDb 1 1 Filters.none_).length =
      (1 : Int).toNat ⊓
        (((primaryRows picoDb).filter (rowMatches Filters.none_)).length -
          ((1 : Int) * 1).toNat) := by
  have h := system_join_fanout_count picoDb Filters.none_ picodrive teamOne rel2
    linuxX64 (by decide) (by decide) rfl (by decide) (by decide) (by decide)
    (by decide) rfl rfl rfl
  exact ⟨h.1, h.2 1 1⟩
